import Mathlib

/-
Shallow embedding of the Zeus serial ASIC driver (src/driver-zeus.c) and
proofs of the specification's claims about it.

Machine integers are modelled as Nat (unsigned) or Int (C int), with
reductions modulo 2^8 or 2^16 made explicit where the C code stores into a
narrower type.  Byte buffers are List Nat with every element < 256.
-/

namespace Zeus

/-! ## Constants

The repository provides only driver-zeus.c; the header driver-zeus.h with
the ZEUS_* constants is not under src/, so the constants the claims need
are modelled from the spec. -/

/-- Modelled from the spec: ZEUS_COMMAND_PKT_LEN from the missing
driver-zeus.h header; the spec fixes command packets at 84 bytes. -/
def ZEUS_COMMAND_PKT_LEN : Nat := 84

/-- Modelled from the spec: ZEUS_EVENT_PKT_LEN from the missing
driver-zeus.h header; the spec fixes event packets at 4 bytes. -/
def ZEUS_EVENT_PKT_LEN : Nat := 4

/-- Modelled from the spec: ZEUS_CHIP_CORES from the missing driver-zeus.h
header; the spec fixes cores-per-chip at 8. -/
def ZEUS_CHIP_CORES : Nat := 8

/-! ## Generic bit-level helper lemmas -/

/-- Masking with a shifted mask equals shifting down, masking, and shifting
back up: N &&& (m <<< k) = ((N >>> k) &&& m) <<< k. -/
theorem and_shiftLeft_mask (N m k : Nat) :
    N &&& (m <<< k) = ((N >>> k) &&& m) <<< k := by
  apply Nat.eq_of_testBit_eq
  intro i
  simp only [Nat.testBit_and, Nat.testBit_shiftLeft, Nat.testBit_shiftRight]
  rcases Nat.lt_or_ge i k with h | h
  · have h2 : ¬ (i ≥ k) := by omega
    simp [h2]
  · have hki : k + (i - k) = i := by omega
    simp only [ge_iff_le, h, decide_True, Bool.true_and, hki]

set_option maxRecDepth 4096 in
/-- Complement of a byte: for x < 256, xor with 0xff is 255 - x. -/
theorem xor_ff_eq_sub : ∀ x : Nat, x < 256 → 0xff ^^^ x = 255 - x := by
  decide

/-! ## rev (src/driver-zeus.c lines 73-83)

The C function reverses a byte buffer in place with a two-pointer swap
loop.  The buffer is modelled as a List Nat, an indexed swap as two
List.set writes. -/

/-- Loop body of rev: while i < j, swap s[i] and s[j], move both pointers
inward. -/
def revGo (s : List Nat) (i j : Nat) : List Nat :=
  if h : i < j then
    revGo ((s.set i (s.getD j 0)).set j (s.getD i 0)) (i + 1) (j - 1)
  else s
termination_by j - i
decreasing_by omega

/-- The rev function of the driver: reverse s[0 .. l-1] in place.  The
length argument of the C function is the list length. -/
def rev (s : List Nat) : List Nat := revGo s 0 (s.length - 1)

theorem revGo_length (s : List Nat) (i j : Nat) :
    (revGo s i j).length = s.length := by
  induction s, i, j using revGo.induct with
  | case1 s i j h ih =>
    rw [revGo]
    simp only [h, dif_pos]
    rw [ih]
    simp [List.length_set]
  | case2 s i j h =>
    rw [revGo]
    simp [h]

theorem revGo_getD (s : List Nat) (i j : Nat) (hj : j < s.length) (k : Nat) :
    (revGo s i j).getD k 0 =
      if i ≤ k ∧ k ≤ j then s.getD (i + j - k) 0 else s.getD k 0 := by
  induction s, i, j using revGo.induct with
  | case1 s i j h ih =>
    rw [revGo]
    simp only [h, dif_pos]
    have hil : i < s.length := by omega
    have hlen : ((s.set i (s.getD j 0)).set j (s.getD i 0)).length = s.length := by
      simp [List.length_set]
    have hj2 : j - 1 < ((s.set i (s.getD j 0)).set j (s.getD i 0)).length := by
      rw [hlen]; omega
    rw [ih hj2]
    have hset : ∀ t : Nat, ((s.set i (s.getD j 0)).set j (s.getD i 0)).getD t 0 =
        if t = i then s.getD j 0 else if t = j then s.getD i 0 else s.getD t 0 := by
      intro t
      rcases eq_or_ne t j with rfl | htj
      · have hti : t ≠ i := by omega
        simp only [List.getD_eq_getElem?_getD, List.getElem?_set, List.length_set]
        simp [hti, hj, List.getD_eq_getElem?_getD]
      · rcases eq_or_ne t i with rfl | hti
        · simp only [List.getD_eq_getElem?_getD, List.getElem?_set, List.length_set]
          simp [Ne.symm htj, hil, List.getD_eq_getElem?_getD]
        · simp only [List.getD_eq_getElem?_getD, List.getElem?_set, List.length_set]
          simp [hti, htj, Ne.symm htj, Ne.symm hti, List.getD_eq_getElem?_getD]
    rcases Nat.lt_or_ge k i with hk | hk
    · -- k below the segment: untouched
      have h1 : ¬ (i + 1 ≤ k ∧ k ≤ j - 1) := by omega
      have h2 : ¬ (i ≤ k ∧ k ≤ j) := by omega
      rw [if_neg h1, if_neg h2, hset]
      have hki : k ≠ i := by omega
      have hkj : k ≠ j := by omega
      simp [hki, hkj]
    · rcases Nat.lt_or_ge j k with hk2 | hk2
      · -- k above the segment: untouched
        have h1 : ¬ (i + 1 ≤ k ∧ k ≤ j - 1) := by omega
        have h2 : ¬ (i ≤ k ∧ k ≤ j) := by omega
        rw [if_neg h1, if_neg h2, hset]
        have hki : k ≠ i := by omega
        have hkj : k ≠ j := by omega
        simp [hki, hkj]
      · -- i ≤ k ≤ j
        have h2 : i ≤ k ∧ k ≤ j := by omega
        rw [if_pos h2]
        rcases eq_or_ne k i with rfl | hki
        · -- k = i: the swap puts s[j] at position i and the recursive
          -- call leaves it alone
          have h1 : ¬ (k + 1 ≤ k ∧ k ≤ j - 1) := by omega
          rw [if_neg h1, hset]
          have harg : k + j - k = j := by omega
          simp [harg]
        · rcases eq_or_ne k j with rfl | hkj
          · -- k = j: the swap puts s[i] at position j
            have h1 : ¬ (i + 1 ≤ k ∧ k ≤ k - 1) := by omega
            rw [if_neg h1, hset]
            have hji : k ≠ i := by omega
            have harg : i + k - k = i := by omega
            simp [hji, harg]
          · -- interior index: handled by the recursive call on cells the
            -- swap did not touch
            have h1 : i + 1 ≤ k ∧ k ≤ j - 1 := by omega
            rw [if_pos h1]
            have harg : i + 1 + (j - 1) - k = i + j - k := by omega
            rw [harg, hset]
            have hm1 : i + j - k ≠ i := by omega
            have hm2 : i + j - k ≠ j := by omega
            simp [hm1, hm2]
  | case2 s i j h =>
    rw [revGo, dif_neg h]
    by_cases hc : i ≤ k ∧ k ≤ j
    · have hkk : i + j - k = k := by omega
      rw [if_pos hc, hkk]
    · rw [if_neg hc]

/-- The rev function computes List.reverse. -/
theorem rev_eq_reverse (s : List Nat) : rev s = s.reverse := by
  apply List.ext_getElem
  · rw [rev, revGo_length, List.length_reverse]
  · intro n h1 h2
    have hn : n < s.length := by
      have := revGo_length s 0 (s.length - 1)
      rw [rev] at h1
      omega
    have hlen0 : 0 < s.length := by omega
    have hL : (rev s).getD n 0 = s.getD (s.length - 1 - n) 0 := by
      rw [rev, revGo_getD s 0 (s.length - 1) (by omega) n]
      have hc : 0 ≤ n ∧ n ≤ s.length - 1 := by omega
      rw [if_pos hc]
      congr 1
      omega
    rw [← List.getD_eq_getElem (rev s) 0 h1, hL,
        List.getD_eq_getElem s 0 (by omega : s.length - 1 - n < s.length),
        List.getElem_reverse]

/-! ## chip_index (src/driver-zeus.c lines 95-111) -/

/-- Loop of chip_index: bit_num iterations of
newvalue = (newvalue << 1) + (value & 1); value = value >> 1. -/
def chip_index_loop : Nat → Nat → Nat → Nat
  | 0, _, newvalue => newvalue
  | n + 1, value, newvalue =>
      chip_index_loop n (value >>> 1) ((newvalue <<< 1) + (value &&& 1))

/-- The chip_index function of the driver: isolate bits 19-28, shift right
so the top bit_num bits of that field remain, then bit-reverse them. -/
def chip_index (value : Nat) (bit_num : Nat) : Nat :=
  chip_index_loop bit_num ((value &&& 0x1ff80000) >>> (29 - bit_num)) 0

/-- Specification-side bit reversal: bitRev b x reverses the low b bits
of x (bit 0 goes to position b-1, and so on). -/
def bitRev : Nat → Nat → Nat
  | 0, _ => 0
  | n + 1, x => (x % 2) * 2 ^ n + bitRev n (x / 2)

theorem chip_index_loop_eq_bitRev (b : Nat) :
    ∀ v a : Nat, chip_index_loop b v a = a * 2 ^ b + bitRev b v := by
  induction b with
  | zero => intro v a; simp [chip_index_loop, bitRev]
  | succ n ih =>
    intro v a
    rw [chip_index_loop, ih, bitRev]
    rw [Nat.shiftLeft_eq, Nat.shiftRight_eq_div_pow]
    have h1 : v &&& 1 = v % 2 := Nat.and_pow_two_sub_one_eq_mod v 1
    rw [h1]
    have h2 : v / 2 ^ 1 = v / 2 := by norm_num
    rw [h2]
    ring

/-- The mask 0x1ff80000 isolates the 10-bit field at bit 19. -/
theorem and_mask_19_28 (N : Nat) :
    N &&& 0x1ff80000 = ((N >>> 19) &&& 0x3ff) <<< 19 := by
  have h : (0x1ff80000 : Nat) = 0x3ff <<< 19 := by decide
  rw [h, and_shiftLeft_mask]

/-- Claim C2: for every 32-bit nonce N and every bit_num B with
0 ≤ B ≤ 10, chip_index(N, B) equals the B-bit bit-reversal of the top B
bits of the 10-bit field of N at bit positions 19..28, that is of
(N >> 19) & 0x3FF. -/
theorem chip_index_spec (N B : Nat) (hB : B ≤ 10) :
    chip_index N B = bitRev B (((N >>> 19) &&& 0x3ff) >>> (10 - B)) := by
  rw [chip_index, chip_index_loop_eq_bitRev, Nat.zero_mul, Nat.zero_add]
  congr 1
  rw [and_mask_19_28]
  generalize (N >>> 19) &&& 0x3ff = x
  rw [Nat.shiftLeft_eq, Nat.shiftRight_eq_div_pow, Nat.shiftRight_eq_div_pow]
  have h29 : 29 - B = 19 + (10 - B) := by omega
  rw [h29, Nat.pow_add, Nat.mul_comm x (2 ^ 19)]
  exact Nat.mul_div_mul_left _ _ (by norm_num)

/-- Witness for C2: claim at the concrete nonce 0xabcd1234 and bit_num 7. -/
theorem chip_index_spec_witness :
    chip_index 0xabcd1234 7 =
      bitRev 7 (((0xabcd1234 >>> 19) &&& 0x3ff) >>> (10 - 7)) :=
  chip_index_spec 0xabcd1234 7 (by norm_num)

/-! ## zeus_send_work (src/driver-zeus.c lines 508-541)

The function fills an 84-byte command packet from the board state and the
work, then writes it to the serial descriptor.  The packet construction is
pure and is modelled here; freqcode is the stored unsigned char (< 256),
work_difficulty the value of the uint32_t diff variable, that is the
work's double difficulty truncated to an integer. -/

/-- Command packet built by zeus_send_work: diff clamped to at least 1,
diff_code = 0xffff / diff split big-endian into bytes 2 and 3, byte 0 the
freqcode, byte 1 its 8-bit complement (xor 0xff), bytes 4..83 the 80-byte
work data reversed in place by rev. -/
def zeus_send_work_pkt (freqcode : Nat) (work_difficulty : Nat) (data : List Nat) : List Nat :=
  let diff := if work_difficulty < 1 then 1 else work_difficulty
  let diff_code := 0xffff / diff
  [freqcode, 0xff ^^^ freqcode,
   (diff_code &&& 0xff00) >>> 8, diff_code &&& 0x00ff] ++ rev data

/-- High byte of a 16-bit value: (x &&& 0xff00) >>> 8 = x / 256 % 256. -/
theorem and_ff00_shr8 (x : Nat) : (x &&& 0xff00) >>> 8 = x / 256 % 256 := by
  have h : (0xff00 : Nat) = 0xff <<< 8 := by decide
  rw [h, and_shiftLeft_mask, Nat.shiftLeft_eq, Nat.shiftRight_eq_div_pow,
      Nat.shiftRight_eq_div_pow]
  rw [Nat.mul_div_cancel _ (by norm_num : 0 < 2 ^ 8)]
  have h2 : (0xff : Nat) = 2 ^ 8 - 1 := by norm_num
  rw [h2, Nat.and_pow_two_sub_one_eq_mod]

/-- Claim C1: for every work whose 80-byte payload is P and whose
difficulty is d, zeus_send_work emits exactly one 84-byte command packet
whose byte 0 is the board's current freqcode, byte 1 is the bitwise
complement of byte 0, bytes 2-3 are the 16-bit big-endian value
0xFFFF / max(1, floor(d)), and bytes 4-83 are P with its byte order
reversed (last byte first). -/
theorem zeus_send_work_pkt_spec (freqcode d : Nat) (P : List Nat)
    (hf : freqcode < 256) (hP : P.length = 80) :
    (zeus_send_work_pkt freqcode d P).length = ZEUS_COMMAND_PKT_LEN ∧
    (zeus_send_work_pkt freqcode d P).getD 0 0 = freqcode ∧
    (zeus_send_work_pkt freqcode d P).getD 1 0 = 255 - freqcode ∧
    (zeus_send_work_pkt freqcode d P).getD 2 0 = 0xffff / max 1 d / 256 ∧
    (zeus_send_work_pkt freqcode d P).getD 3 0 = 0xffff / max 1 d % 256 ∧
    (zeus_send_work_pkt freqcode d P).drop 4 = P.reverse := by
  have hmax : (if d < 1 then 1 else d) = max 1 d := by
    split <;> omega
  have hcode : 0xffff / max 1 d < 65536 := by
    have h := Nat.div_le_self 0xffff (max 1 d)
    omega
  refine ⟨?_, rfl, ?_, ?_, ?_, ?_⟩
  · simp [zeus_send_work_pkt, ZEUS_COMMAND_PKT_LEN, rev_eq_reverse, hP]
  · show 0xff ^^^ freqcode = 255 - freqcode
    exact xor_ff_eq_sub freqcode hf
  · show (0xffff / (if d < 1 then 1 else d) &&& 0xff00) >>> 8 = 0xffff / max 1 d / 256
    rw [hmax, and_ff00_shr8]
    exact Nat.mod_eq_of_lt (Nat.div_lt_of_lt_mul (by omega))
  · show 0xffff / (if d < 1 then 1 else d) &&& 0x00ff = 0xffff / max 1 d % 256
    rw [hmax]
    exact Nat.and_pow_two_sub_one_eq_mod _ 8
  · show rev P = P.reverse
    exact rev_eq_reverse P

/-- Witness for C1: claim at freqcode 0x55, difficulty 1, payload
0, 1, ..., 79. -/
theorem zeus_send_work_pkt_spec_witness :
    (zeus_send_work_pkt 0x55 1 (List.range 80)).length = ZEUS_COMMAND_PKT_LEN ∧
    (zeus_send_work_pkt 0x55 1 (List.range 80)).getD 0 0 = 0x55 ∧
    (zeus_send_work_pkt 0x55 1 (List.range 80)).getD 1 0 = 255 - 0x55 ∧
    (zeus_send_work_pkt 0x55 1 (List.range 80)).getD 2 0 = 0xffff / max 1 1 / 256 ∧
    (zeus_send_work_pkt 0x55 1 (List.range 80)).getD 3 0 = 0xffff / max 1 1 % 256 ∧
    (zeus_send_work_pkt 0x55 1 (List.range 80)).drop 4 = (List.range 80).reverse :=
  zeus_send_work_pkt_spec 0x55 1 (List.range 80) (by norm_num) (by simp)

/-! ## Golden nonce self-test (src/driver-zeus.c lines 267, 341-349)

The driver stores the 4 received bytes into a uint32_t with memcpy and
applies be32toh; the expected value golden_nonce_val is be32toh(0x268d0300).
The host is the usual little-endian deployment target, on which be32toh is
a 32-bit byte swap. -/

/-- Byte swap of a 32-bit value: be32toh on a little-endian host. -/
def be32toh_le (x : Nat) : Nat :=
  (x % 256) * 16777216 + (x / 256 % 256) * 65536 +
    (x / 65536 % 256) * 256 + x / 16777216 % 256

/-- The constant golden_nonce_val = be32toh(0x268d0300) of zeus_detect_one. -/
def golden_nonce_val : Nat := be32toh_le 0x268d0300

/-- Decoding of a received event packet b0 b1 b2 b3 (b0 first on the
wire): memcpy into a uint32_t on the little-endian host followed by
be32toh. -/
def zeus_decode_nonce (b0 b1 b2 b3 : Nat) : Nat :=
  be32toh_le (b0 + b1 * 256 + b2 * 65536 + b3 * 16777216)

/-- The detection comparison of zeus_detect_one: the board is registered
exactly when the decoded nonce equals golden_nonce_val. -/
def zeus_golden_test_ok (b0 b1 b2 b3 : Nat) : Bool :=
  zeus_decode_nonce b0 b1 b2 b3 == golden_nonce_val

/-- Counterexample to claim C3: the golden reply bytes 00 03 8d 26 pass
detection although their big-endian decoding 0x00038d26 differs from the
constant 0x000D2668 the claim names; the expected constant is
be32toh(0x268d0300) = 0x00038d26. -/
theorem golden_nonce_counterexample :
    zeus_golden_test_ok 0x00 0x03 0x8d 0x26 = true ∧
    zeus_decode_nonce 0x00 0x03 0x8d 0x26 ≠ 0x000D2668 := by
  constructor
  · rfl
  · decide

/-- Claim C3 as amended: the detector decodes the 4 received bytes as a
big-endian 32-bit value and compares it to the expected constant
0x00038D26 (the little-endian be32toh image of the literal 0x268d0300);
detection fails exactly when the decoded value differs from that
constant. -/
theorem zeus_golden_test_spec (b0 b1 b2 b3 : Nat)
    (h0 : b0 < 256) (h1 : b1 < 256) (h2 : b2 < 256) (h3 : b3 < 256) :
    zeus_decode_nonce b0 b1 b2 b3 =
      ((b0 * 256 + b1) * 256 + b2) * 256 + b3 ∧
    (zeus_golden_test_ok b0 b1 b2 b3 = false ↔
      zeus_decode_nonce b0 b1 b2 b3 ≠ 0x00038D26) := by
  constructor
  · show be32toh_le (b0 + b1 * 256 + b2 * 65536 + b3 * 16777216) = _
    have he : (b0 + b1 * 256 + b2 * 65536 + b3 * 16777216) / 256 =
        b1 + b2 * 256 + b3 * 65536 := by omega
    have hg : (b0 + b1 * 256 + b2 * 65536 + b3 * 16777216) / 65536 =
        b2 + b3 * 256 := by omega
    have hj : (b0 + b1 * 256 + b2 * 65536 + b3 * 16777216) / 16777216 = b3 := by
      omega
    have hm : (b0 + b1 * 256 + b2 * 65536 + b3 * 16777216) % 256 = b0 := by omega
    have hm1 : (b1 + b2 * 256 + b3 * 65536) % 256 = b1 := by omega
    have hm2 : (b2 + b3 * 256) % 256 = b2 := by omega
    have hm3 : b3 % 256 = b3 := Nat.mod_eq_of_lt h3
    rw [be32toh_le, hm, he, hg, hj, hm1, hm2, hm3]
    ring
  · rw [zeus_golden_test_ok,
        show golden_nonce_val = 0x00038D26 from rfl]
    simp [beq_eq_false_iff_ne]

/-- Witness for C3: the amended claim at the received bytes 01 02 03 04. -/
theorem zeus_golden_test_spec_witness :
    zeus_decode_nonce 1 2 3 4 = ((1 * 256 + 2) * 256 + 3) * 256 + 4 ∧
    (zeus_golden_test_ok 1 2 3 4 = false ↔
      zeus_decode_nonce 1 2 3 4 ≠ 0x00038D26) :=
  zeus_golden_test_spec 1 2 3 4 (by norm_num) (by norm_num) (by norm_num)
    (by norm_num)

/-! ## lowest_pow2 and log_2 (src/driver-zeus.c lines 85-93, 113-122)
and the chips_count_max setup of zeus_detect_one (lines 280-283, 408) -/

/-- Loop of lowest_pow2 with the loop variable written as i = 2^k: for
(i = 1; i < 1024; i *= 2) if (min <= i) return i; return 1024. -/
def lowest_pow2_go (min : Nat) (k : Nat) : Nat :=
  if h : 2 ^ k < 1024 then
    (if min ≤ 2 ^ k then 2 ^ k else lowest_pow2_go min (k + 1))
  else 1024
termination_by 10 - k
decreasing_by
  have hk : k < 10 := by
    by_contra hc
    push_neg at hc
    have hpow := Nat.pow_le_pow_right (by norm_num : 1 ≤ 2) hc
    have h10 : (2 : Nat) ^ 10 ≤ 2 ^ k := hpow
    norm_num at h10
    omega
  omega

/-- The lowest_pow2 function of the driver: smallest power of two that is
at least min, capped at 1024. -/
def lowest_pow2 (min : Nat) : Nat := lowest_pow2_go min 0

/-- The log_2 function of the driver: floor of log2 by repeated right
shift. -/
def log_2 (value : Nat) : Nat :=
  if h : 1 < value then log_2 (value >>> 1) + 1 else 0
termination_by value
decreasing_by
  have : value >>> 1 = value / 2 := Nat.shiftRight_eq_div_pow value 1
  omega

/-- The chips_count_max update of zeus_detect_one: the process-wide
opt_zeus_chips_count_max (initially 1) is raised to
lowest_pow2(chips_count) when chips_count exceeds it, and the detected
board records the resulting value. -/
def detect_chips_count_max (chips_count m : Nat) : Nat :=
  if m < chips_count then lowest_pow2 chips_count else m

theorem lowest_pow2_go_pow (min : Nat) :
    ∀ k, ∃ j, j ≤ 10 ∧ lowest_pow2_go min k = 2 ^ j := by
  refine lowest_pow2_go.induct min
    (fun k => ∃ j, j ≤ 10 ∧ lowest_pow2_go min k = 2 ^ j) ?_ ?_ ?_
  · intro k hlt hle
    have hk : k < 10 := by
      have h2 : (2 : Nat) ^ k < 2 ^ 10 := by
        calc (2 : Nat) ^ k < 1024 := hlt
        _ = 2 ^ 10 := by norm_num
      exact (Nat.pow_lt_pow_iff_right (by norm_num : 1 < 2)).mp h2
    exact ⟨k, by omega,
      by rw [lowest_pow2_go, dif_pos hlt, if_pos hle]⟩
  · intro k hlt hle ih
    obtain ⟨j, hj2, hj3⟩ := ih
    exact ⟨j, hj2,
      by rw [lowest_pow2_go, dif_pos hlt, if_neg hle, hj3]⟩
  · intro k hlt
    exact ⟨10, le_refl 10, by rw [lowest_pow2_go, dif_neg hlt]; norm_num⟩

theorem lowest_pow2_go_ge (min : Nat) (hmin : min ≤ 1024) :
    ∀ k, min ≤ lowest_pow2_go min k := by
  refine lowest_pow2_go.induct min (fun k => min ≤ lowest_pow2_go min k) ?_ ?_ ?_
  · intro k hlt hle
    rw [lowest_pow2_go, dif_pos hlt, if_pos hle]; exact hle
  · intro k hlt hle ih
    rw [lowest_pow2_go, dif_pos hlt, if_neg hle]; exact ih
  · intro k hlt
    rw [lowest_pow2_go, dif_neg hlt]; exact hmin

/-- log_2 inverts powers of two. -/
theorem log_2_two_pow (k : Nat) : log_2 (2 ^ k) = k := by
  induction k with
  | zero => rw [log_2]; norm_num
  | succ n ih =>
    rw [log_2]
    have h1 : 1 < 2 ^ (n + 1) := by
      have := Nat.one_lt_two_pow_iff.mpr (by omega : n + 1 ≠ 0)
      omega
    rw [dif_pos h1]
    have h2 : 2 ^ (n + 1) >>> 1 = 2 ^ n := by
      rw [Nat.shiftRight_eq_div_pow, Nat.pow_succ]
      simp
    rw [h2, ih]

/-- Counterexample to claim C4: with the declared chips-count 1025 the
detector caps chips_count_max at lowest_pow2(1025) = 1024, so
C ≤ chips_count_max fails. -/
theorem chips_count_max_counterexample :
    detect_chips_count_max 1025 1 = 1024 ∧
    ¬ (1025 ≤ detect_chips_count_max 1025 1) := by
  have h : detect_chips_count_max 1025 1 = 1024 := by
    rw [detect_chips_count_max, if_pos (by norm_num), lowest_pow2]
    rw [lowest_pow2_go, dif_pos (by norm_num), if_neg (by norm_num)]
    rw [lowest_pow2_go, dif_pos (by norm_num), if_neg (by norm_num)]
    rw [lowest_pow2_go, dif_pos (by norm_num), if_neg (by norm_num)]
    rw [lowest_pow2_go, dif_pos (by norm_num), if_neg (by norm_num)]
    rw [lowest_pow2_go, dif_pos (by norm_num), if_neg (by norm_num)]
    rw [lowest_pow2_go, dif_pos (by norm_num), if_neg (by norm_num)]
    rw [lowest_pow2_go, dif_pos (by norm_num), if_neg (by norm_num)]
    rw [lowest_pow2_go, dif_pos (by norm_num), if_neg (by norm_num)]
    rw [lowest_pow2_go, dif_pos (by norm_num), if_neg (by norm_num)]
    rw [lowest_pow2_go, dif_pos (by norm_num), if_neg (by norm_num)]
    rw [lowest_pow2_go, dif_neg (by norm_num)]
  rw [h]
  norm_num

/-- Claim C4 as amended: for every positive declared chips-count C up to
1024, a first detection sets chips_count_max to lowest_pow2(C), and
afterwards chips_count_max is a power of two whose log_2 is its exponent
(chips_bit_num), and C ≤ chips_count_max.  For C above 1024 the cap of
lowest_pow2 makes C ≤ chips_count_max false. -/
theorem chips_count_max_spec (C : Nat) (h1 : 1 ≤ C) (h2 : C ≤ 1024) :
    detect_chips_count_max C 1 = lowest_pow2 C ∧
    detect_chips_count_max C 1 = 2 ^ log_2 (detect_chips_count_max C 1) ∧
    C ≤ detect_chips_count_max C 1 := by
  have hset : detect_chips_count_max C 1 = lowest_pow2 C := by
    rcases Nat.lt_or_ge 1 C with h | h
    · rw [detect_chips_count_max, if_pos h]
    · have hC1 : C = 1 := by omega
      subst hC1
      rw [detect_chips_count_max, if_neg (by norm_num), lowest_pow2]
      rw [lowest_pow2_go, dif_pos (by norm_num), if_pos (by norm_num)]
      norm_num
  refine ⟨hset, ?_, ?_⟩
  · rw [hset]
    obtain ⟨j, _, hj⟩ := lowest_pow2_go_pow C 0
    rw [lowest_pow2, hj, log_2_two_pow]
  · rw [hset]
    exact lowest_pow2_go_ge C h2 0

/-- Witness for C4: the amended claim at the concrete chips-count 3,
where chips_count_max becomes lowest_pow2(3) = 4. -/
theorem chips_count_max_spec_witness :
    detect_chips_count_max 3 1 = lowest_pow2 3 ∧
    detect_chips_count_max 3 1 = 2 ^ log_2 (detect_chips_count_max 3 1) ∧
    3 ≤ detect_chips_count_max 3 1 :=
  chips_count_max_spec 3 (by norm_num) (by norm_num)

/-! ## work_timeout initialization (src/driver-zeus.c lines 392-394) -/

/-- The tv_sec field computed by zeus_detect_one:
4294967296LL / (golden_speed_per_core * cores_per_chip * chips_count). -/
def zeus_work_timeout_sec (golden_speed_per_core cores_per_chip chips_count : Nat) : Nat :=
  4294967296 / (golden_speed_per_core * cores_per_chip * chips_count)

/-- The tv_usec field computed by zeus_detect_one:
((4294967296LL * 1000000L) / (golden_speed_per_core * cores_per_chip *
chips_count)) % 1000000L. -/
def zeus_work_timeout_usec (golden_speed_per_core cores_per_chip chips_count : Nat) : Nat :=
  4294967296 * 1000000 / (golden_speed_per_core * cores_per_chip * chips_count)
    % 1000000

/-- Scaling-then-mod extracts the fractional part: for positive D and M,
(a * M / D) % M = (a % D) * M / D, the M-fraction of the division
remainder. -/
theorem mul_div_mod_eq_mod_mul_div (a M D : Nat) (hD : 0 < D) (hM : 0 < M) :
    a * M / D % M = a % D * M / D := by
  conv_lhs => rw [← Nat.div_add_mod a D]
  rw [Nat.add_mul, Nat.mul_assoc]
  rw [Nat.mul_add_div hD]
  rw [Nat.add_comm, Nat.add_mul_mod_self_right]
  apply Nat.mod_eq_of_lt
  rw [Nat.div_lt_iff_lt_mul hD, Nat.mul_comm M D]
  exact mul_lt_mul_of_pos_right (Nat.mod_lt a hD) hM

/-- Claim C5: after detection with golden_speed_per_core g ≥ 1,
cores_per_chip = 8 and declared chips-count C ≥ 1, work_timeout represents
exactly the duration 2^32 / (g * 8 * C) seconds truncated to whole
microseconds: tv_sec = floor(2^32 / (g*8*C)), tv_usec =
floor(2^32 * 10^6 / (g*8*C)) mod 10^6, the latter being the microsecond
part of the fractional remainder. -/
theorem work_timeout_spec (g C : Nat) (hg : 1 ≤ g) (hC : 1 ≤ C) :
    zeus_work_timeout_sec g 8 C = 2 ^ 32 / (g * 8 * C) ∧
    zeus_work_timeout_usec g 8 C = 2 ^ 32 * 10 ^ 6 / (g * 8 * C) % 10 ^ 6 ∧
    zeus_work_timeout_usec g 8 C = 2 ^ 32 % (g * 8 * C) * 10 ^ 6 / (g * 8 * C) ∧
    zeus_work_timeout_usec g 8 C < 10 ^ 6 := by
  have hD : 0 < g * 8 * C := by positivity
  refine ⟨by norm_num [zeus_work_timeout_sec], by norm_num [zeus_work_timeout_usec], ?_, ?_⟩
  · show 4294967296 * 1000000 / (g * 8 * C) % 1000000 = _
    rw [mul_div_mod_eq_mod_mul_div 4294967296 1000000 (g * 8 * C) hD (by norm_num)]
    norm_num
  · show 4294967296 * 1000000 / (g * 8 * C) % 1000000 < 10 ^ 6
    have h := Nat.mod_lt (4294967296 * 1000000 / (g * 8 * C)) (show 0 < 1000000 by norm_num)
    omega

/-- Witness for C5: the claim at golden_speed_per_core 100000 and
chips-count 6. -/
theorem work_timeout_spec_witness :
    zeus_work_timeout_sec 100000 8 6 = 2 ^ 32 / (100000 * 8 * 6) ∧
    zeus_work_timeout_usec 100000 8 6 = 2 ^ 32 * 10 ^ 6 / (100000 * 8 * 6) % 10 ^ 6 ∧
    zeus_work_timeout_usec 100000 8 6 =
      2 ^ 32 % (100000 * 8 * 6) * 10 ^ 6 / (100000 * 8 * 6) ∧
    zeus_work_timeout_usec 100000 8 6 < 10 ^ 6 :=
  work_timeout_spec 100000 6 (by norm_num) (by norm_num)

/-! ## zeus_clk_to_freqcode (src/driver-zeus.c lines 240-255)

ZEUS_CLK_MIN and ZEUS_CLK_MAX live in the missing driver-zeus.h header, so
the function is modelled with the two bounds as parameters (cmin ≤ cmax).
The C body computes (unsigned char)((double)clkfreq * 2. / 3.); on the
clamped range the double product and quotient are exact enough that the
truncation equals the integer floor (clkfreq * 2) / 3, which is how the
arithmetic is modelled.  The returned Bool records whether a clamping
warning was logged. -/

/-- Modelled from the spec: zeus_clk_to_freqcode with the CLK bounds of
the missing driver-zeus.h as parameters.  Clamp above cmax (warning),
clamp below cmin (warning), then take floor(clk * 2 / 3) as an unsigned
char. -/
def zeus_clk_to_freqcode (cmin cmax clkfreq : Int) : Bool × Nat :=
  let p1 : Bool × Int := if cmax < clkfreq then (true, cmax) else (false, clkfreq)
  let p2 : Bool × Int := if p1.2 < cmin then (true, cmin) else p1
  (p2.1, (p2.2 * 2 / 3).toNat % 256)

/-- Claim C6: zeus_clk_to_freqcode first clamps its argument into
[ZEUS_CLK_MIN, ZEUS_CLK_MAX] (so clk_to_freqcode(CLK_MIN - 1) returns the
code for CLK_MIN and clk_to_freqcode(CLK_MAX + 1) the code for CLK_MAX,
each with a warning), and for every K in range it returns
floor(K * 2 / 3) mod 256 with no warning. -/
theorem clk_to_freqcode_spec (cmin cmax K : Int)
    (h2 : cmin ≤ cmax) (h3 : cmin ≤ K) (h4 : K ≤ cmax) :
    (zeus_clk_to_freqcode cmin cmax (cmin - 1)).2 =
      (zeus_clk_to_freqcode cmin cmax cmin).2 ∧
    (zeus_clk_to_freqcode cmin cmax (cmin - 1)).1 = true ∧
    (zeus_clk_to_freqcode cmin cmax (cmax + 1)).2 =
      (zeus_clk_to_freqcode cmin cmax cmax).2 ∧
    (zeus_clk_to_freqcode cmin cmax (cmax + 1)).1 = true ∧
    zeus_clk_to_freqcode cmin cmax K = (false, (K * 2 / 3).toNat % 256) := by
  refine ⟨?_, ?_, ?_, ?_, ?_⟩
  · rw [zeus_clk_to_freqcode, zeus_clk_to_freqcode]
    rw [if_neg (by omega : ¬ cmax < cmin - 1), if_neg (by omega : ¬ cmax < cmin)]
    simp only
    rw [if_pos (by omega : cmin - 1 < cmin), if_neg (by omega : ¬ cmin < cmin)]
  · rw [zeus_clk_to_freqcode]
    rw [if_neg (by omega : ¬ cmax < cmin - 1)]
    simp only
    rw [if_pos (by omega : cmin - 1 < cmin)]
  · rw [zeus_clk_to_freqcode, zeus_clk_to_freqcode]
    rw [if_pos (by omega : cmax < cmax + 1), if_neg (by omega : ¬ cmax < cmax)]
    simp only
    rw [if_neg (by omega : ¬ cmax < cmin), if_neg (by omega : ¬ cmax < cmin)]
  · rw [zeus_clk_to_freqcode]
    rw [if_pos (by omega : cmax < cmax + 1)]
    simp only
    rw [if_neg (by omega : ¬ cmax < cmin)]
  · rw [zeus_clk_to_freqcode]
    rw [if_neg (by omega : ¬ cmax < K)]
    simp only
    rw [if_neg (by omega : ¬ K < cmin)]

/-- Witness for C6: the claim at the bounds 200 and 382 of a ZeusMiner
board and the in-range clock 328. -/
theorem clk_to_freqcode_spec_witness :
    (zeus_clk_to_freqcode 200 382 (200 - 1)).2 =
      (zeus_clk_to_freqcode 200 382 200).2 ∧
    (zeus_clk_to_freqcode 200 382 (200 - 1)).1 = true ∧
    (zeus_clk_to_freqcode 200 382 (382 + 1)).2 =
      (zeus_clk_to_freqcode 200 382 382).2 ∧
    (zeus_clk_to_freqcode 200 382 (382 + 1)).1 = true ∧
    zeus_clk_to_freqcode 200 382 328 = (false, ((328 : Int) * 2 / 3).toNat % 256) :=
  clk_to_freqcode_spec 200 382 328 (by norm_num) (by norm_num) (by norm_num)

/-! ## zeus_set_device "freq" (src/driver-zeus.c lines 804-822) and the
clock promotion of zeus_io_thread (lines 584-594) -/

/-- The clock-related slice of struct ZEUS_INFO: the stored freqcode byte,
the pending next_chip_clk (-1 when none), and the active chip_clk. -/
structure ZeusClockState where
  freqcode : Nat
  next_chip_clk : Int
  chip_clk : Int
deriving DecidableEq

/-- The freq branch of zeus_set_device: reject a value outside
[cmin, cmax] with an error reply (Bool true) and no state change;
otherwise store val as next_chip_clk and recompute freqcode immediately,
returning NULL (Bool false). -/
def zeus_set_device_freq (cmin cmax val : Int) (s : ZeusClockState) :
    Bool × ZeusClockState :=
  if val < cmin ∨ cmax < val then (true, s)
  else (false, { s with next_chip_clk := val,
                        freqcode := (zeus_clk_to_freqcode cmin cmax val).2 })

/-- The promotion done by zeus_io_thread right after zeus_send_work
succeeds: if next_chip_clk is set, it becomes the active chip_clk and is
cleared to -1. -/
def zeus_after_send_clk (s : ZeusClockState) : ZeusClockState :=
  if s.next_chip_clk ≠ -1 then
    { s with chip_clk := s.next_chip_clk, next_chip_clk := -1 }
  else s

/-- Claim C7: set_device("freq", v) with v outside [CLK_MIN, CLK_MAX]
returns an error reply and leaves freqcode and next_chip_clk unchanged;
with v in range it sets next_chip_clk = v and
freqcode = clk_to_freqcode(v) immediately, and the active chip_clk takes
the value v only after the next successful work transmission. -/
theorem set_device_freq_spec (cmin cmax v : Int) (s : ZeusClockState)
    (h1 : 1 ≤ cmin) (h2 : cmin ≤ cmax) :
    ((v < cmin ∨ cmax < v) → zeus_set_device_freq cmin cmax v s = (true, s)) ∧
    (cmin ≤ v → v ≤ cmax →
      (zeus_set_device_freq cmin cmax v s).1 = false ∧
      (zeus_set_device_freq cmin cmax v s).2.next_chip_clk = v ∧
      (zeus_set_device_freq cmin cmax v s).2.freqcode =
        (zeus_clk_to_freqcode cmin cmax v).2 ∧
      (zeus_set_device_freq cmin cmax v s).2.chip_clk = s.chip_clk ∧
      (zeus_after_send_clk (zeus_set_device_freq cmin cmax v s).2).chip_clk = v ∧
      (zeus_after_send_clk (zeus_set_device_freq cmin cmax v s).2).next_chip_clk
        = -1) := by
  constructor
  · intro hout
    rw [zeus_set_device_freq, if_pos hout]
  · intro hlo hhi
    have hin : ¬ (v < cmin ∨ cmax < v) := by omega
    have hs : zeus_set_device_freq cmin cmax v s =
        (false, { s with next_chip_clk := v,
                         freqcode := (zeus_clk_to_freqcode cmin cmax v).2 }) := by
      rw [zeus_set_device_freq, if_neg hin]
    have hv : v ≠ -1 := by omega
    refine ⟨by rw [hs], by rw [hs], by rw [hs], by rw [hs], ?_, ?_⟩
    · rw [hs]
      show (zeus_after_send_clk _).chip_clk = v
      rw [zeus_after_send_clk, if_pos (by simpa using hv)]
    · rw [hs]
      show (zeus_after_send_clk _).next_chip_clk = -1
      rw [zeus_after_send_clk, if_pos (by simpa using hv)]

/-- Witness for C7: the claim at bounds 200-382, requested clock 250, and
a state with freqcode 218, no pending clock, active clock 328. -/
theorem set_device_freq_spec_witness :
    ((250 : Int) < 200 ∨ (382 : Int) < 250 →
      zeus_set_device_freq 200 382 250 ⟨218, -1, 328⟩ =
        (true, ⟨218, -1, 328⟩)) ∧
    ((200 : Int) ≤ 250 → (250 : Int) ≤ 382 →
      (zeus_set_device_freq 200 382 250 ⟨218, -1, 328⟩).1 = false ∧
      (zeus_set_device_freq 200 382 250 ⟨218, -1, 328⟩).2.next_chip_clk = 250 ∧
      (zeus_set_device_freq 200 382 250 ⟨218, -1, 328⟩).2.freqcode =
        (zeus_clk_to_freqcode 200 382 250).2 ∧
      (zeus_set_device_freq 200 382 250 ⟨218, -1, 328⟩).2.chip_clk =
        (⟨218, -1, 328⟩ : ZeusClockState).chip_clk ∧
      (zeus_after_send_clk
        (zeus_set_device_freq 200 382 250 ⟨218, -1, 328⟩).2).chip_clk = 250 ∧
      (zeus_after_send_clk
        (zeus_set_device_freq 200 382 250 ⟨218, -1, 328⟩).2).next_chip_clk
        = -1) :=
  set_device_freq_spec 200 382 250 ⟨218, -1, 328⟩ (by norm_num) (by norm_num)

/-! ## zeus_scanwork (src/driver-zeus.c lines 713-736)

The elapsed wall-clock time between two scanwork calls is a double; it is
modelled as an exact nonnegative rational.  The (int64_t) conversion of
the double product truncates toward zero, which on the nonnegative values
used equals the floor. -/

/-- The estimate computed by zeus_scanwork: the truncated product
elapsed_s * golden_speed_per_core * cores_per_chip * chips_count, clamped
to 0xffffffff when it exceeds that bound. -/
def zeus_scanwork_estimate (elapsed_s : ℚ)
    (golden_speed_per_core cores_per_chip chips_count : Nat) : Int :=
  let estimate_hashes : Int :=
    ⌊elapsed_s * golden_speed_per_core * cores_per_chip * chips_count⌋
  if estimate_hashes > 0xffffffff then 0xffffffff else estimate_hashes

/-- Claim C8: every call to zeus_scanwork returns
min(2^32 - 1, elapsed * golden_speed_per_core * cores_per_chip *
chips_count) where elapsed is the seconds elapsed since the previous
scanwork call (the product truncated to an integer hash count); in
particular the returned estimate never exceeds 2^32 - 1. -/
theorem scanwork_spec (e : ℚ) (g C : Nat) (he : 0 ≤ e) :
    zeus_scanwork_estimate e g 8 C =
      min (⌊e * g * 8 * C⌋) (2 ^ 32 - 1) ∧
    zeus_scanwork_estimate e g 8 C ≤ 2 ^ 32 - 1 := by
  rw [zeus_scanwork_estimate]
  have hx : ((8 : Nat) : ℚ) = (8 : ℚ) := by norm_num
  simp only [hx]
  constructor
  · split
    · rw [min_eq_right]
      · norm_num
      · omega
    · rw [min_eq_left]
      omega
  · split
    · norm_num
    · omega

/-- Witness for C8: the claim at elapsed 1/10 s, golden speed 67379,
8 chips. -/
theorem scanwork_spec_witness :
    zeus_scanwork_estimate (1 / 10) 67379 8 8 =
      min (⌊(1 / 10 : ℚ) * 67379 * 8 * 8⌋) (2 ^ 32 - 1) ∧
    zeus_scanwork_estimate (1 / 10) 67379 8 8 ≤ 2 ^ 32 - 1 :=
  scanwork_spec (1 / 10) 67379 8 (by norm_num)

/-! ## zeus_check_need_work (src/driver-zeus.c lines 480-506)

The current-work slot is an Option (so it can never hold more than one
work).  The function reads the slot, and when it is empty pulls one work
from the host outside the lock; because another thread may install work
meanwhile, the slot observed after re-acquiring the lock is a separate
parameter.  The outcome records which of the two paths consumed the
pulled work. -/

/-- A work as the claim needs it: the devflag (sent) bit and an identity
tag standing for the remaining fields. -/
structure ZeusWork where
  devflag : Bool
  tag : Nat
deriving DecidableEq

/-- Fate of a work pulled from the host by zeus_check_need_work. -/
inductive WorkFate where
  | installed
  | discarded
deriving DecidableEq

/-- The zeus_check_need_work body: slot_entry is current_work when the
function reads it, slot_relock is current_work once the lock is
re-acquired after the blocking get_work, w the work get_work returned.
Result: the slot after the call, the fate of w (none when no work was
pulled), and the returned need_work flag. -/
def zeus_check_need_work (slot_entry slot_relock : Option ZeusWork)
    (w : ZeusWork) : Option ZeusWork × Option WorkFate × Bool :=
  match slot_entry with
  | none =>
      match slot_relock with
      | none => (some { w with devflag := false }, some WorkFate.installed, true)
      | some cw => (some cw, some WorkFate.discarded, false)
  | some _ => (slot_entry, none, false)

/-- Claim C9: in zeus_check_need_work, every work pulled from the host via
get_work is consumed by exactly one of two paths: it is installed into the
current-work slot (only if the slot is still empty when the lock is
re-acquired, and then with its devflag false) or it is passed to
discard_work; the slot (an Option, hence never holding more than one
work) ends up with the installed work exactly in the first case. -/
theorem check_need_work_spec (s1 : Option ZeusWork) (w : ZeusWork) :
    ((zeus_check_need_work none s1 w).2.1 = some WorkFate.installed ∨
      (zeus_check_need_work none s1 w).2.1 = some WorkFate.discarded) ∧
    ((zeus_check_need_work none s1 w).2.1 = some WorkFate.installed ↔
      s1 = none) ∧
    ((zeus_check_need_work none s1 w).2.1 = some WorkFate.installed →
      (zeus_check_need_work none s1 w).1 = some ⟨false, w.tag⟩) ∧
    ((zeus_check_need_work none s1 w).2.1 = some WorkFate.discarded →
      (zeus_check_need_work none s1 w).1 = s1) ∧
    ((zeus_check_need_work none s1 w).2.2 = true ↔
      (zeus_check_need_work none s1 w).2.1 = some WorkFate.installed) := by
  rcases s1 with _ | cw <;> simp [zeus_check_need_work]

/-! ## Nonce decoding bounds in zeus_read_response
(src/driver-zeus.c lines 465-475) -/

/-- The core index extracted by zeus_read_response:
(nonce & 0xe0000000) >> 29. -/
def core_of_nonce (nonce : Nat) : Nat := (nonce &&& 0xe0000000) >>> 29

/-- The accounting condition of zeus_read_response: the per-chip/per-core
counters are updated exactly when chip < maxChips (ZEUS_MAX_CHIPS, from
the missing driver-zeus.h, kept as a parameter) and core <
ZEUS_CHIP_CORES; otherwise the corrupt-nonce branch logs and drops the
packet. -/
def zeus_response_accounted (nonce chips_bit_num maxChips : Nat) : Bool :=
  decide (chip_index nonce chips_bit_num < maxChips) &&
    decide (core_of_nonce nonce < ZEUS_CHIP_CORES)

/-- Claim C10: in zeus_read_response the core index is computed as the top
3 bits of the decoded nonce, so core < 8 = ZEUS_CHIP_CORES holds for every
possible nonce; the corrupt-nonce branch can therefore only be reached by
the chip bound failing, never by the core bound. -/
theorem read_response_core_bound (nonce B maxChips : Nat) :
    core_of_nonce nonce < ZEUS_CHIP_CORES ∧
    (zeus_response_accounted nonce B maxChips = false ↔
      maxChips ≤ chip_index nonce B) := by
  have hcore : core_of_nonce nonce < ZEUS_CHIP_CORES := by
    have h1 : nonce &&& 0xe0000000 ≤ 0xe0000000 := Nat.and_le_right
    have h2 : (nonce &&& 0xe0000000) / 2 ^ 29 ≤ 0xe0000000 / 2 ^ 29 :=
      Nat.div_le_div_right h1
    have h3 : (0xe0000000 : Nat) / 2 ^ 29 = 7 := by norm_num
    rw [core_of_nonce, Nat.shiftRight_eq_div_pow]
    rw [ZEUS_CHIP_CORES]
    omega
  refine ⟨hcore, ?_⟩
  rw [zeus_response_accounted]
  simp [hcore]

end Zeus
